import Mathlib

/-!
Verification development for sqlcc, a SQL migration tool.

The Go sources are shallowly embedded below:
* the migration-set loader (`parseMigrations`, `parseMigrationName`,
  regexp `(\d+)_.*\.sql` from migrations.go),
* the state store (`state` record; reads and writes are modelled as
  operations on an explicit database value `db`),
* the apply engine (`migrate`'s transaction closure, built from
  `getState`, `setState`, `ExecContext` and the `withTx` wrapper from db.go).

Conventions of the embedding:
* Go `int` is modelled as `Int`; `strconv.Atoi` overflow (beyond
  2^63 - 1 on a 64-bit platform) is modelled by the `goResult.panicked`
  outcome, mirroring the `panic(err)` in `parseMigrationName`.
* Go strings are modelled as `String`; character-level regexp matching
  works on `String.data` (`List Char`).
* `os.ReadDir` output is modelled as an explicit entry list (Go returns
  entries sorted by filename, so the list is canonical for a directory);
  file reads are modelled by a `content` field on the entry.  `fmt`'s `%q`
  verb is modelled by plain quoting (`goQuote`), without escaping of
  special characters, which no theorem below depends on.
* The Go map `migrationsByVersion` is modelled as an association list in
  insertion order; the non-deterministic order in which `range` visits the
  map is modelled by an explicit `reorder` parameter constrained to be a
  permutation (`parseMigrationsWith`), and `sort.Slice`'s unstable sort is
  modelled by `List.insertionSort` (on version-distinct lists every sorted
  permutation is unique, which is proved, so this loses no generality).
* Database effects are split into the persisted database value `db`
  (state record plus the accumulated effects of successfully executed
  scripts) and a real-time I/O trace of `event`s (names printed, state
  writes issued, scripts submitted for execution).  A transaction rollback
  restores the persisted value but of course cannot un-issue trace events.
* Script execution outcomes are modelled by an oracle
  `execOk : String → Bool` mapping a script to success or failure.
-/

namespace Sqlcc

/-- Result of a Go function that can return a value, return an error, or
panic (`parseMigrationName` panics when `strconv.Atoi` fails). -/
inductive goResult (α : Type) where
  | ok : α → goResult α
  | err : String → goResult α
  | panicked : String → goResult α
deriving DecidableEq

/-- A migration, from migrations.go: `type migration struct`. -/
structure migration where
  version : Int
  name : String
  query : String
deriving DecidableEq

/-- The persisted state record, from db.go: `type state struct`. -/
structure state where
  version : Int
  dirty : Bool
deriving DecidableEq

/-- Model of Go's `%q`: quote the string (escaping of special characters
inside the name is not modelled; no theorem depends on it). -/
def goQuote (s : String) : String := "\"" ++ s ++ "\""

/-- Largest value `strconv.Atoi` accepts on a 64-bit platform (Go `int`). -/
def goMaxInt : Nat := 9223372036854775807

/-- Decimal value of a digit run, as `strconv.Atoi` computes it. -/
def digitsVal (ds : List Char) : Nat :=
  ds.foldl (fun acc c => acc * 10 + (c.toNat - 48)) 0

/-- Matching of the regexp tail `.*\.sql` against a character list:
succeeds iff `.sql` occurs with no newline before it (`.` in Go regexp
does not match a newline). -/
def restMatch : List Char → Bool
  | [] => false
  | c :: cs =>
    if (c :: cs).take 4 = ['.', 's', 'q', 'l'] then true
    else (c != '\n') && restMatch cs

/-- Matching of `(\d+)_.*\.sql` anchored at the current position: a
nonempty maximal digit run, then an underscore, then `.*\.sql`.  Returns
the captured digit run.  (A shorter-than-maximal digit run can never
match, since it would have to be followed by an underscore but is
followed by a digit, so the maximal run is faithful to the regexp's
backtracking semantics.) -/
def matchAt (cs : List Char) : Option (List Char) :=
  let ds := cs.takeWhile Char.isDigit
  if ds.isEmpty then none
  else
    match cs.dropWhile Char.isDigit with
    | '_' :: rest => if restMatch rest then some ds else none
    | _ => none

/-- Leftmost match of the unanchored regexp
`migrationNamePattern = (\d+)_.*\.sql` (migrations.go), as
`FindStringSubmatch` computes it: the first position, scanning left to
right, where the pattern matches. -/
def findMatch : List Char → Option (List Char)
  | [] => none
  | c :: cs =>
    match matchAt (c :: cs) with
    | some ds => some ds
    | none => findMatch cs

/-- `parseMigrationName` from migrations.go: regexp match, `strconv.Atoi`
on the captured digits (panicking on its error, i.e. on overflow), and
the zero-version check. -/
def parseMigrationName (name : String) : goResult Int :=
  match findMatch name.data with
  | none => .err ("migration name must begin with digits followed by underscore: " ++ goQuote name)
  | some ds =>
    if digitsVal ds > goMaxInt then .panicked "strconv.Atoi: value out of range"
    else if digitsVal ds = 0 then .err ("migration version must be nonzero: " ++ goQuote name)
    else .ok (Int.ofNat (digitsVal ds))

/-- One entry of the migrations directory, as returned by `os.ReadDir`
(plus the file's content, standing for `os.ReadFile`). -/
structure dirEntry where
  name : String
  isDir : Bool
  content : String
deriving DecidableEq

/-- `strings.HasSuffix(name, ".sql")` from migrations.go. -/
def hasSqlSuffix (name : String) : Bool :=
  List.isSuffixOf ['.', 's', 'q', 'l'] name.data

/-- The entry loop of `parseMigrations` (migrations.go): skip directories
and non-`.sql` names, parse each remaining name, reject a version already
present in `migrationsByVersion` (modelled as the association list `acc`
in insertion order), and otherwise record the migration. -/
def collectMigrations : List dirEntry → List migration → goResult (List migration)
  | [], acc => .ok acc
  | e :: rest, acc =>
    if e.isDir then collectMigrations rest acc
    else if hasSqlSuffix e.name then
      match parseMigrationName e.name with
      | .panicked s => .panicked s
      | .err s => .err s
      | .ok v =>
        match List.find? (fun m => m.version == v) acc with
        | some m0 =>
          .err ("two migrations for same version: " ++ goQuote e.name ++ ", " ++ goQuote m0.name)
        | none => collectMigrations rest (acc ++ [⟨v, e.name, e.content⟩])
    else collectMigrations rest acc

/-- Version order on migrations (the comparison `sort.Slice` is given in
migrations.go), as a non-strict relation usable for sorting. -/
def vle (a b : migration) : Prop := a.version ≤ b.version

/-- Strict version order on migrations. -/
def vlt (a b : migration) : Prop := a.version < b.version

/-- Version distinctness of two migrations. -/
def vne (a b : migration) : Prop := a.version ≠ b.version

instance : DecidableRel vle := fun a b => inferInstanceAs (Decidable (a.version ≤ b.version))

instance : DecidableRel vlt := fun a b => inferInstanceAs (Decidable (a.version < b.version))

instance : DecidableRel vne := fun a b => inferInstanceAs (Decidable (a.version ≠ b.version))

instance : IsTotal migration vle where
  total := fun a b => Int.le_total a.version b.version

instance : IsTrans migration vle where
  trans := fun _ _ _ h1 h2 => le_trans h1 h2

instance : IsTrans migration vlt where
  trans := fun _ _ _ h1 h2 => lt_trans h1 h2

instance : IsAntisymm migration vlt where
  antisymm := fun _ _ h1 h2 => absurd h1 (lt_asymm h2)

/-- `parseMigrations` from migrations.go, with the order in which Go's
`range` visits the values of the `migrationsByVersion` map made explicit
as a `reorder` function (constrained to a permutation in the theorems):
collect the migrations, then sort them by version. -/
def parseMigrationsWith (reorder : List migration → List migration)
    (entries : List dirEntry) : goResult (List migration) :=
  match collectMigrations entries [] with
  | .ok l => .ok (List.insertionSort vle (reorder l))
  | .err s => .err s
  | .panicked s => .panicked s

/-- `parseMigrations` with one fixed map-iteration order (the identity). -/
def parseMigrations (entries : List dirEntry) : goResult (List migration) :=
  parseMigrationsWith id entries

/-- One observable I/O action of the apply engine: a migration name
printed to stdout, a state write issued by `setState`, or a migration
script submitted to `ExecContext`. -/
inductive event where
  | printName : String → event
  | writeState : state → event
  | execScript : String → event
deriving DecidableEq

/-- The persisted database: the state record (db.go keeps it in the state
table; `getState` reads it, `setState` overwrites it) plus the
accumulated effects of the successfully executed migration scripts,
modelled as the list of executed script texts. -/
structure db where
  st : state
  applied : List String
deriving DecidableEq

/-- The migration loop of `migrate` (main.go, lines 362-383), starting
from loop variable `i` already advanced past the non-pending prefix: for
each remaining migration print its name; in force mode write the state
dirty, execute the script (failing per the `execOk` oracle), and on
success write the state clean at the migration's own version.  Returns
the resulting database, the I/O trace, and the returned error if any. -/
def migrateLoop (execOk : String → Bool) (force : Bool) :
    state → List migration → db → db × List event × Except String Unit
  | _, [], d => (d, [], .ok ())
  | st, m :: rest, d =>
    if force then
      let st1 : state := ⟨st.version, true⟩
      let d1 : db := ⟨st1, d.applied⟩
      if execOk m.query then
        let st2 : state := ⟨m.version, false⟩
        let d2 : db := ⟨st2, d1.applied ++ [m.query]⟩
        let res := migrateLoop execOk force st2 rest d2
        (res.1,
         event.printName m.name :: event.writeState st1 :: event.execScript m.query ::
           event.writeState st2 :: res.2.1,
         res.2.2)
      else
        (d1, [event.printName m.name, event.writeState st1, event.execScript m.query],
         .error ("exec " ++ goQuote m.name))
    else
      let res := migrateLoop execOk force st rest d
      (res.1, event.printName m.name :: res.2.1, res.2.2)

/-- The body of the closure `migrate` passes to `withTx` (main.go, lines
345-386): read the state, refuse to proceed when it is dirty, advance
past migrations with `version <= state.version`, then run the loop. -/
def migrateBody (execOk : String → Bool) (force : Bool) (migrations : List migration)
    (d : db) : db × List event × Except String Unit :=
  let st := d.st
  if st.dirty then (d, [], .error "state is dirty, will not migrate")
  else migrateLoop execOk force st (migrations.dropWhile (fun m => m.version ≤ st.version)) d

/-- `migrate`'s database phase: the closure body wrapped in `withTx`
(db.go, lines 14-37).  With `inTx` false the body runs directly against
the database; with `inTx` true a failure rolls the persisted database
back to its pre-call value and success commits the body's result.  The
I/O trace is what was emitted while running and is not undone by a
rollback. -/
def migrateTx (inTx : Bool) (execOk : String → Bool) (force : Bool)
    (migrations : List migration) (d : db) : db × List event × Except String Unit :=
  let r := migrateBody execOk force migrations d
  if inTx then
    match r.2.2 with
    | .ok _ => r
    | .error e => (d, r.2.1, .error e)
  else r

/-- The scripts submitted for execution in a trace. -/
def execsOf : List event → List String
  | [] => []
  | event.printName _ :: rest => execsOf rest
  | event.writeState _ :: rest => execsOf rest
  | event.execScript q :: rest => q :: execsOf rest

/-- The state writes issued in a trace. -/
def writesOf : List event → List state
  | [] => []
  | event.printName _ :: rest => writesOf rest
  | event.writeState s :: rest => s :: writesOf rest
  | event.execScript _ :: rest => writesOf rest

/-- The migration names printed in a trace. -/
def printsOf : List event → List String
  | [] => []
  | event.printName n :: rest => n :: printsOf rest
  | event.writeState _ :: rest => printsOf rest
  | event.execScript _ :: rest => printsOf rest

/-- The version reached after applying a list of migrations in order,
starting from a given version: the last migration's version, or the
start version when the list is empty. -/
def lastVersion : List migration → Int → Int
  | [], v => v
  | m :: rest, _ => lastVersion rest m.version

/-- The trace the force-mode loop emits when every script in the list
succeeds, starting from a given current version. -/
def forceOkEvents : Int → List migration → List event
  | _, [] => []
  | v, m :: rest =>
    event.printName m.name :: event.writeState ⟨v, true⟩ :: event.execScript m.query ::
      event.writeState ⟨m.version, false⟩ :: forceOkEvents m.version rest

/-! ## Helper lemmas -/

theorem execsOf_append (a b : List event) : execsOf (a ++ b) = execsOf a ++ execsOf b := by
  induction a with
  | nil => rfl
  | cons e rest ih => cases e <;> simp [execsOf, ih]

theorem execsOf_prints (ms : List migration) :
    execsOf (ms.map fun m => event.printName m.name) = [] := by
  induction ms with
  | nil => rfl
  | cons m rest ih => simp [execsOf, ih]

theorem writesOf_prints (ms : List migration) :
    writesOf (ms.map fun m => event.printName m.name) = [] := by
  induction ms with
  | nil => rfl
  | cons m rest ih => simp [writesOf, ih]

theorem printsOf_prints (ms : List migration) :
    printsOf (ms.map fun m => event.printName m.name) = ms.map fun m => m.name := by
  induction ms with
  | nil => rfl
  | cons m rest ih => simp [printsOf, ih]

theorem execsOf_forceOkEvents (v : Int) (ms : List migration) :
    execsOf (forceOkEvents v ms) = ms.map fun m => m.query := by
  induction ms generalizing v with
  | nil => rfl
  | cons m rest ih => simp [forceOkEvents, execsOf, ih]

theorem migrateLoop_dryRun (eo : String → Bool) (st : state) (ms : List migration) (d : db) :
    migrateLoop eo false st ms d = (d, ms.map (fun m => event.printName m.name), .ok ()) := by
  induction ms with
  | nil => rfl
  | cons m rest ih => simp [migrateLoop, ih]

theorem migrateLoop_force_ok (eo : String → Bool) (ms : List migration) :
    ∀ (st : state) (d : db),
      (∀ m ∈ ms, eo m.query = true) → d.st = st → st.dirty = false →
      migrateLoop eo true st ms d =
        (⟨⟨lastVersion ms st.version, false⟩, d.applied ++ ms.map fun m => m.query⟩,
         forceOkEvents st.version ms, .ok ()) := by
  induction ms with
  | nil =>
    intro st d _ hd hdirty
    cases d with
    | mk dst dapp =>
      cases dst with
      | mk v dirt =>
        cases hd
        simp only [state.dirty] at hdirty
        subst hdirty
        simp [migrateLoop, lastVersion, forceOkEvents]
  | cons m rest ih =>
    intro st d h hd hdirty
    have hm : eo m.query = true := h m (List.mem_cons_self _ _)
    have hrec := ih ⟨m.version, false⟩ ⟨⟨m.version, false⟩, d.applied ++ [m.query]⟩
      (fun x hx => h x (List.mem_cons_of_mem _ hx)) rfl rfl
    simp only [migrateLoop, hm, if_true, hrec, lastVersion, forceOkEvents]
    simp

theorem migrateLoop_force_fail (eo : String → Bool) (p1 : List migration) :
    ∀ (m : migration) (p2 : List migration) (st : state) (d : db),
      (∀ x ∈ p1, eo x.query = true) → eo m.query = false → d.st = st → st.dirty = false →
      migrateLoop eo true st (p1 ++ m :: p2) d =
        (⟨⟨lastVersion p1 st.version, true⟩, d.applied ++ p1.map fun x => x.query⟩,
         forceOkEvents st.version p1 ++
           [event.printName m.name, event.writeState ⟨lastVersion p1 st.version, true⟩,
            event.execScript m.query],
         .error ("exec " ++ goQuote m.name)) := by
  induction p1 with
  | nil =>
    intro m p2 st d _ hm hd hdirty
    simp [migrateLoop, hm, lastVersion, forceOkEvents]
  | cons x rest ih =>
    intro m p2 st d h hm hd hdirty
    have hx : eo x.query = true := h x (List.mem_cons_self _ _)
    have hrec := ih m p2 ⟨x.version, false⟩ ⟨⟨x.version, false⟩, d.applied ++ [x.query]⟩
      (fun y hy => h y (List.mem_cons_of_mem _ hy)) hm rfl rfl
    simp only [List.cons_append, migrateLoop, hx, if_true, List.append_eq]
    rw [hrec]
    simp [lastVersion, forceOkEvents]

theorem dropWhile_le_eq_filter (V : Int) (ms : List migration) (hs : List.Pairwise vlt ms) :
    ms.dropWhile (fun m => m.version ≤ V) = ms.filter (fun m => V < m.version) := by
  induction ms with
  | nil => rfl
  | cons m rest ih =>
    rcases List.pairwise_cons.mp hs with ⟨hall, hrest⟩
    by_cases h : m.version ≤ V
    · have hv : ¬ (V < m.version) := not_lt.mpr h
      simp [List.dropWhile_cons, List.filter_cons, h, hv, ih hrest]
    · have hv : V < m.version := not_le.mp h
      simp [List.dropWhile_cons, List.filter_cons, h, hv]
      exact (List.filter_eq_self.mpr fun x hx => decide_eq_true (lt_trans hv (hall x hx))).symm

theorem parseMigrationName_ok_pos (name : String) (v : Int)
    (h : parseMigrationName name = .ok v) : 1 ≤ v := by
  unfold parseMigrationName at h
  split at h
  · exact absurd h (by simp)
  · split at h
    · exact absurd h (by simp)
    · split at h
      · exact absurd h (by simp)
      · injection h with h
        subst h
        rename_i hz
        rw [Int.ofNat_eq_natCast]
        exact_mod_cast Nat.pos_of_ne_zero hz

theorem collectMigrations_inv (entries : List dirEntry) :
    ∀ (acc l : List migration),
      collectMigrations entries acc = .ok l →
      List.Pairwise vne acc → (∀ m ∈ acc, 1 ≤ m.version) →
      List.Pairwise vne l ∧ ∀ m ∈ l, 1 ≤ m.version := by
  induction entries with
  | nil =>
    intro acc l h hp hv
    simp only [collectMigrations] at h
    injection h with h
    subst h
    exact ⟨hp, hv⟩
  | cons e rest ih =>
    intro acc l h hp hv
    simp only [collectMigrations] at h
    by_cases hdir : e.isDir = true
    · rw [if_pos hdir] at h
      exact ih acc l h hp hv
    · rw [if_neg hdir] at h
      by_cases hsql : hasSqlSuffix e.name = true
      · rw [if_pos hsql] at h
        split at h
        · exact absurd h (by simp)
        · exact absurd h (by simp)
        · rename_i v hpn
          split at h
          · exact absurd h (by simp)
          · rename_i hfind
            apply ih (acc ++ [⟨v, e.name, e.content⟩]) l h
            · rw [List.pairwise_append]
              refine ⟨hp, List.pairwise_singleton _ _, ?_⟩
              intro a ha b hb
              rw [List.mem_singleton] at hb
              subst hb
              have := List.find?_eq_none.mp hfind a ha
              simpa [vne] using this
            · intro m hm
              rcases List.mem_append.mp hm with hm | hm
              · exact hv m hm
              · rw [List.mem_singleton] at hm
                subst hm
                exact parseMigrationName_ok_pos e.name v hpn
      · rw [if_neg hsql] at h
        exact ih acc l h hp hv

theorem vne_symm : ∀ {x y : migration}, vne x y → vne y x := fun h => Ne.symm h

theorem insertionSort_perm_eq (l l1 l2 : List migration)
    (hne : List.Pairwise vne l) (h1 : l1.Perm l) (h2 : l2.Perm l) :
    List.insertionSort vle l1 = List.insertionSort vle l2 := by
  have p1 : (List.insertionSort vle l1).Perm l := (List.perm_insertionSort vle l1).trans h1
  have p2 : (List.insertionSort vle l2).Perm l := (List.perm_insertionSort vle l2).trans h2
  have s1 : List.Sorted vle (List.insertionSort vle l1) := List.sorted_insertionSort vle l1
  have s2 : List.Sorted vle (List.insertionSort vle l2) := List.sorted_insertionSort vle l2
  have n1 : List.Pairwise vne (List.insertionSort vle l1) := (p1.pairwise_iff vne_symm).mpr hne
  have n2 : List.Pairwise vne (List.insertionSort vle l2) := (p2.pairwise_iff vne_symm).mpr hne
  have t1 : List.Sorted vlt (List.insertionSort vle l1) :=
    (s1.and n1).imp fun h => lt_of_le_of_ne h.1 h.2
  have t2 : List.Sorted vlt (List.insertionSort vle l2) :=
    (s2.and n2).imp fun h => lt_of_le_of_ne h.1 h.2
  exact List.eq_of_perm_of_sorted (p1.trans p2.symm) t1 t2

theorem migrateTx_events (inTx force : Bool) (eo : String → Bool) (ms : List migration)
    (d : db) : (migrateTx inTx eo force ms d).2.1 = (migrateBody eo force ms d).2.1 := by
  cases hr : (migrateBody eo force ms d).2.2 <;> cases inTx <;> simp [migrateTx, hr]

theorem execsOf_migrateLoop_le (eo : String → Bool) (force : Bool) :
    ∀ (ms : List migration) (st : state) (d : db),
      (execsOf (migrateLoop eo force st ms d).2.1).length ≤ ms.length := by
  intro ms
  induction ms with
  | nil => intro st d; simp [migrateLoop, execsOf]
  | cons m rest ih =>
    intro st d
    cases force with
    | false =>
      simp only [migrateLoop, execsOf, List.length_cons]
      exact le_trans (ih st d) (Nat.le_succ _)
    | true =>
      cases hq : eo m.query with
      | true =>
        simp only [migrateLoop, hq, if_true, execsOf, List.length_cons]
        exact Nat.succ_le_succ (ih _ _)
      | false =>
        simp [migrateLoop, hq, execsOf]

/-! ## Claim theorems -/

/-- Claim C1: in force mode against a clean state `(V, dirty := false)`,
`migrate` executes exactly the migrations with version strictly greater
than `V`, in the (ascending) order of the set, and on success leaves the
persisted state at the last executed migration's own version, clean —
not at the count of migrations applied. -/
theorem c1_force_applies_pending (inTx : Bool) (eo : String → Bool) (ms : List migration)
    (V : Int) (apps : List String)
    (hsorted : List.Pairwise vlt ms)
    (hok : ∀ m ∈ ms, eo m.query = true) :
    migrateTx inTx eo true ms ⟨⟨V, false⟩, apps⟩ =
      (⟨⟨lastVersion (ms.filter fun m => V < m.version) V, false⟩,
        apps ++ (ms.filter fun m => V < m.version).map fun m => m.query⟩,
       forceOkEvents V (ms.filter fun m => V < m.version), .ok ()) ∧
    execsOf (forceOkEvents V (ms.filter fun m => V < m.version)) =
      (ms.filter fun m => V < m.version).map (fun m => m.query) ∧
    List.Pairwise vlt (ms.filter fun m => V < m.version) := by
  have hpend := dropWhile_le_eq_filter V ms hsorted
  have hokp : ∀ m ∈ ms.filter fun m => V < m.version, eo m.query = true :=
    fun m hm => hok m (List.mem_of_mem_filter hm)
  have hloop := migrateLoop_force_ok eo (ms.filter fun m => V < m.version)
    ⟨V, false⟩ ⟨⟨V, false⟩, apps⟩ hokp rfl rfl
  refine ⟨?_, execsOf_forceOkEvents V _, hsorted.filter _⟩
  have hbody : migrateBody eo true ms ⟨⟨V, false⟩, apps⟩ =
      (⟨⟨lastVersion (ms.filter fun m => V < m.version) V, false⟩,
        apps ++ (ms.filter fun m => V < m.version).map fun m => m.query⟩,
       forceOkEvents V (ms.filter fun m => V < m.version), .ok ()) := by
    simp only [migrateBody]
    rw [if_neg Bool.false_ne_true]
    simp only [hpend, hloop]
  simp [migrateTx, hbody]

/-- Witness for C1 at a three-migration set with versions 1, 3, 7 and a
clean state at version 0. -/
theorem c1_witness :
    List.Pairwise vlt
      ([⟨1, "1_a.sql", "qa"⟩, ⟨3, "3_b.sql", "qb"⟩, ⟨7, "7_c.sql", "qc"⟩] : List migration) ∧
    (∀ m ∈ ([⟨1, "1_a.sql", "qa"⟩, ⟨3, "3_b.sql", "qb"⟩, ⟨7, "7_c.sql", "qc"⟩] : List migration),
      (fun _ => true) m.query = true) ∧
    (migrateTx false (fun _ => true) true
        [⟨1, "1_a.sql", "qa"⟩, ⟨3, "3_b.sql", "qb"⟩, ⟨7, "7_c.sql", "qc"⟩] ⟨⟨0, false⟩, []⟩ =
      (⟨⟨lastVersion (List.filter (fun m => 0 < m.version)
            ([⟨1, "1_a.sql", "qa"⟩, ⟨3, "3_b.sql", "qb"⟩, ⟨7, "7_c.sql", "qc"⟩] :
              List migration)) 0, false⟩,
        [] ++ (List.filter (fun m => 0 < m.version)
            ([⟨1, "1_a.sql", "qa"⟩, ⟨3, "3_b.sql", "qb"⟩, ⟨7, "7_c.sql", "qc"⟩] :
              List migration)).map
            fun m => m.query⟩,
       forceOkEvents 0 (List.filter (fun m => 0 < m.version)
          ([⟨1, "1_a.sql", "qa"⟩, ⟨3, "3_b.sql", "qb"⟩, ⟨7, "7_c.sql", "qc"⟩] :
            List migration)), .ok ()) ∧
    execsOf (forceOkEvents 0 (List.filter (fun m => 0 < m.version)
        ([⟨1, "1_a.sql", "qa"⟩, ⟨3, "3_b.sql", "qb"⟩, ⟨7, "7_c.sql", "qc"⟩] :
          List migration))) =
      (List.filter (fun m => 0 < m.version)
          ([⟨1, "1_a.sql", "qa"⟩, ⟨3, "3_b.sql", "qb"⟩, ⟨7, "7_c.sql", "qc"⟩] :
            List migration)).map
        (fun m => m.query) ∧
    List.Pairwise vlt (List.filter (fun m => 0 < m.version)
        ([⟨1, "1_a.sql", "qa"⟩, ⟨3, "3_b.sql", "qb"⟩, ⟨7, "7_c.sql", "qc"⟩] :
          List migration))) :=
  ⟨by decide, by decide,
   c1_force_applies_pending false (fun _ => true)
     [⟨1, "1_a.sql", "qa"⟩, ⟨3, "3_b.sql", "qb"⟩, ⟨7, "7_c.sql", "qc"⟩] 0 []
     (by decide) (by decide)⟩

/-- Claim C2: against a dirty state, `migrate` (dry-run or force,
transactional or not) fails with the dirty-guard error, emits no events
at all (so zero script executions, zero state writes), and leaves the
persisted database unchanged. -/
theorem c2_dirty_guard (inTx force : Bool) (eo : String → Bool) (ms : List migration)
    (d : db) (hdirty : d.st.dirty = true) :
    migrateTx inTx eo force ms d = (d, [], .error "state is dirty, will not migrate") := by
  cases inTx <;> simp [migrateTx, migrateBody, hdirty]

/-- Witness for C2 at a dirty state of version 4. -/
theorem c2_witness :
    ((⟨⟨4, true⟩, ["old"]⟩ : db).st.dirty = true) ∧
    migrateTx true (fun _ => true) true [⟨5, "5_a.sql", "qa"⟩] ⟨⟨4, true⟩, ["old"]⟩ =
      (⟨⟨4, true⟩, ["old"]⟩, [], .error "state is dirty, will not migrate") :=
  ⟨rfl, c2_dirty_guard true true (fun _ => true) [⟨5, "5_a.sql", "qa"⟩] ⟨⟨4, true⟩, ["old"]⟩ rfl⟩

/-- Claim C3: in non-transactional force mode, when the pending list is
`p1 ++ m :: p2` with every script of `p1` succeeding and `m`'s script
failing, `migrate` stops at `m`: it returns `m`'s execution error, the
persisted state is left at the version reached after `p1` (the previous
pending migration's version, or the initial version when `p1` is empty)
with `dirty := true`, the persisted effects are exactly `p1`'s scripts,
and the scripts submitted for execution are exactly `p1`'s followed by
`m`'s — nothing from `p2` runs. -/
theorem c3_force_fail_stops (eo : String → Bool) (ms : List migration) (V : Int)
    (apps : List String) (p1 : List migration) (m : migration) (p2 : List migration)
    (hpend : ms.dropWhile (fun x => x.version ≤ V) = p1 ++ m :: p2)
    (h1 : ∀ x ∈ p1, eo x.query = true)
    (hm : eo m.query = false) :
    migrateTx false eo true ms ⟨⟨V, false⟩, apps⟩ =
      (⟨⟨lastVersion p1 V, true⟩, apps ++ p1.map fun x => x.query⟩,
       forceOkEvents V p1 ++
         [event.printName m.name, event.writeState ⟨lastVersion p1 V, true⟩,
          event.execScript m.query],
       .error ("exec " ++ goQuote m.name)) ∧
    execsOf (forceOkEvents V p1 ++
        [event.printName m.name, event.writeState ⟨lastVersion p1 V, true⟩,
         event.execScript m.query]) =
      (p1.map fun x => x.query) ++ [m.query] := by
  have hloop := migrateLoop_force_fail eo p1 m p2 ⟨V, false⟩ ⟨⟨V, false⟩, apps⟩ h1 hm rfl rfl
  constructor
  · have hbody : migrateBody eo true ms ⟨⟨V, false⟩, apps⟩ =
        (⟨⟨lastVersion p1 V, true⟩, apps ++ p1.map fun x => x.query⟩,
         forceOkEvents V p1 ++
           [event.printName m.name, event.writeState ⟨lastVersion p1 V, true⟩,
            event.execScript m.query],
         .error ("exec " ++ goQuote m.name)) := by
      simp only [migrateBody]
      rw [if_neg Bool.false_ne_true]
      simp only [hpend, hloop]
    simp [migrateTx, hbody]
  · rw [execsOf_append, execsOf_forceOkEvents]
    simp [execsOf]

/-- Witness for C3: two pending migrations, the first succeeds and the
second fails, so the state sticks dirty at version 1. -/
theorem c3_witness :
    (List.dropWhile (fun x => x.version ≤ 0)
        ([⟨1, "1_a.sql", "qa"⟩, ⟨2, "2_b.sql", "qb"⟩] : List migration) =
      [⟨1, "1_a.sql", "qa"⟩] ++ ⟨2, "2_b.sql", "qb"⟩ :: []) ∧
    (∀ x ∈ ([⟨1, "1_a.sql", "qa"⟩] : List migration), (fun q => q == "qa") x.query = true) ∧
    ((fun q => q == "qa") "qb" = false) ∧
    (migrateTx false (fun q => q == "qa") true
        [⟨1, "1_a.sql", "qa"⟩, ⟨2, "2_b.sql", "qb"⟩] ⟨⟨0, false⟩, []⟩ =
      (⟨⟨lastVersion [⟨1, "1_a.sql", "qa"⟩] 0, true⟩,
        [] ++ ([⟨1, "1_a.sql", "qa"⟩] : List migration).map fun x => x.query⟩,
       forceOkEvents 0 [⟨1, "1_a.sql", "qa"⟩] ++
         [event.printName "2_b.sql",
          event.writeState ⟨lastVersion [⟨1, "1_a.sql", "qa"⟩] 0, true⟩,
          event.execScript "qb"],
       .error ("exec " ++ goQuote "2_b.sql")) ∧
    execsOf (forceOkEvents 0 [⟨1, "1_a.sql", "qa"⟩] ++
        [event.printName "2_b.sql",
         event.writeState ⟨lastVersion [⟨1, "1_a.sql", "qa"⟩] 0, true⟩,
         event.execScript "qb"]) =
      (([⟨1, "1_a.sql", "qa"⟩] : List migration).map fun x => x.query) ++ ["qb"]) :=
  ⟨by decide, by decide, by decide,
   c3_force_fail_stops (fun q => q == "qa") [⟨1, "1_a.sql", "qa"⟩, ⟨2, "2_b.sql", "qb"⟩] 0 []
     [⟨1, "1_a.sql", "qa"⟩] ⟨2, "2_b.sql", "qb"⟩ [] (by decide) (by decide) (by decide)⟩

/-- Claim C4: in transactional mode the whole run — the state read, the
dirty guard, every state write and every script execution — happens in
one transaction (the body passed to `withTx`), committed only when the
body succeeds; when the run fails anywhere, the rollback restores the
persisted database (state record and applied-script effects) to exactly
its pre-call value. -/
theorem c4_tx_rollback (eo : String → Bool) (force : Bool) (ms : List migration)
    (d : db) (e : String)
    (h : (migrateTx true eo force ms d).2.2 = .error e) :
    (migrateTx true eo force ms d).1 = d := by
  cases hr : (migrateBody eo force ms d).2.2 with
  | ok u => simp [migrateTx, hr] at h
  | error e2 => simp [migrateTx, hr]

/-- Witness for C4: a failing script inside a transaction leaves the
database exactly as it was before the call. -/
theorem c4_witness :
    ((migrateTx true (fun _ => false) true [⟨1, "1_a.sql", "qa"⟩] ⟨⟨0, false⟩, ["seed"]⟩).2.2 =
      .error ("exec " ++ goQuote "1_a.sql")) ∧
    (migrateTx true (fun _ => false) true [⟨1, "1_a.sql", "qa"⟩] ⟨⟨0, false⟩, ["seed"]⟩).1 =
      ⟨⟨0, false⟩, ["seed"]⟩ :=
  ⟨rfl,
   c4_tx_rollback (fun _ => false) true [⟨1, "1_a.sql", "qa"⟩] ⟨⟨0, false⟩, ["seed"]⟩
     ("exec " ++ goQuote "1_a.sql") rfl⟩

/-- Claim C5: in dry-run mode (no force option) against a clean state,
`migrate` prints the name of each pending migration, submits no script
for execution, issues no state write, leaves the persisted database
unchanged, and succeeds. -/
theorem c5_dryrun_reports_only (inTx : Bool) (eo : String → Bool) (ms : List migration)
    (V : Int) (apps : List String)
    (hsorted : List.Pairwise vlt ms) :
    migrateTx inTx eo false ms ⟨⟨V, false⟩, apps⟩ =
      (⟨⟨V, false⟩, apps⟩,
       (ms.filter fun m => V < m.version).map (fun m => event.printName m.name), .ok ()) ∧
    execsOf ((ms.filter fun m => V < m.version).map fun m => event.printName m.name) = [] ∧
    writesOf ((ms.filter fun m => V < m.version).map fun m => event.printName m.name) = [] ∧
    printsOf ((ms.filter fun m => V < m.version).map fun m => event.printName m.name) =
      (ms.filter fun m => V < m.version).map fun m => m.name := by
  have hpend := dropWhile_le_eq_filter V ms hsorted
  refine ⟨?_, execsOf_prints _, writesOf_prints _, printsOf_prints _⟩
  have hbody : migrateBody eo false ms ⟨⟨V, false⟩, apps⟩ =
      (⟨⟨V, false⟩, apps⟩,
       (ms.filter fun m => V < m.version).map (fun m => event.printName m.name), .ok ()) := by
    simp only [migrateBody]
    rw [if_neg Bool.false_ne_true]
    simp only [hpend, migrateLoop_dryRun]
  simp [migrateTx, hbody]

/-- Witness for C5 at a two-migration set with one pending migration. -/
theorem c5_witness :
    List.Pairwise vlt ([⟨1, "1_a.sql", "qa"⟩, ⟨2, "2_b.sql", "qb"⟩] : List migration) ∧
    (migrateTx true (fun _ => false) false
        [⟨1, "1_a.sql", "qa"⟩, ⟨2, "2_b.sql", "qb"⟩] ⟨⟨1, false⟩, ["seed"]⟩ =
      (⟨⟨1, false⟩, ["seed"]⟩,
       (List.filter (fun m => 1 < m.version)
          ([⟨1, "1_a.sql", "qa"⟩, ⟨2, "2_b.sql", "qb"⟩] : List migration)).map
         (fun m => event.printName m.name), .ok ()) ∧
    execsOf ((List.filter (fun m => 1 < m.version)
        ([⟨1, "1_a.sql", "qa"⟩, ⟨2, "2_b.sql", "qb"⟩] : List migration)).map
        fun m => event.printName m.name) = [] ∧
    writesOf ((List.filter (fun m => 1 < m.version)
        ([⟨1, "1_a.sql", "qa"⟩, ⟨2, "2_b.sql", "qb"⟩] : List migration)).map
        fun m => event.printName m.name) = [] ∧
    printsOf ((List.filter (fun m => 1 < m.version)
        ([⟨1, "1_a.sql", "qa"⟩, ⟨2, "2_b.sql", "qb"⟩] : List migration)).map
        fun m => event.printName m.name) =
      (List.filter (fun m => 1 < m.version)
          ([⟨1, "1_a.sql", "qa"⟩, ⟨2, "2_b.sql", "qb"⟩] : List migration)).map
        fun m => m.name) :=
  ⟨by decide,
   c5_dryrun_reports_only true (fun _ => false) [⟨1, "1_a.sql", "qa"⟩, ⟨2, "2_b.sql", "qb"⟩]
     1 ["seed"] (by decide)⟩

/-- Counterexample to Claim C6: `migrate` does not return the count of
migrations applied.  Its success value is the same bare success token
whether two migrations were applied or zero were: the Go function
returns only `error` (its printed names and the state table are the only
record of what ran), so no returned count distinguishes the two runs
below, which apply 2 and 0 migrations respectively. -/
theorem c6_counterexample :
    (migrateTx false (fun _ => true) true
        [⟨1, "1_a.sql", "qa"⟩, ⟨2, "2_b.sql", "qb"⟩] ⟨⟨0, false⟩, []⟩).2.2 =
      (migrateTx false (fun _ => true) true [] ⟨⟨0, false⟩, []⟩).2.2 ∧
    (execsOf (migrateTx false (fun _ => true) true
        [⟨1, "1_a.sql", "qa"⟩, ⟨2, "2_b.sql", "qb"⟩] ⟨⟨0, false⟩, []⟩).2.1).length = 2 ∧
    (execsOf (migrateTx false (fun _ => true) true [] ⟨⟨0, false⟩, []⟩).2.1).length = 0 :=
  ⟨rfl, rfl, rfl⟩

/-- Claim C6 as amended: `migrate` returns only success or an error, not
a count; the number of migrations actually executed is 0 in dry-run mode
and between 0 and n in force mode (n the size of the migration set),
depending on where a failure occurred. -/
theorem c6_applied_count (inTx force : Bool) (eo : String → Bool) (ms : List migration)
    (d : db) :
    (execsOf (migrateTx inTx eo force ms d).2.1).length ≤ ms.length ∧
    execsOf (migrateTx inTx eo false ms d).2.1 = [] := by
  constructor
  · rw [migrateTx_events]
    simp only [migrateBody]
    split
    · simp [execsOf]
    · exact le_trans (execsOf_migrateLoop_le eo force _ _ _)
        (List.Sublist.length_le (List.dropWhile_sublist _))
  · rw [migrateTx_events]
    simp only [migrateBody]
    split
    · simp [execsOf]
    · rw [migrateLoop_dryRun]
      exact execsOf_prints _

/-- Evidence against Claim C7 (code bug): the pattern
`(\d+)_.*\.sql` in the source is unanchored, so the filename
`foo12_bar.sql` — which does not begin with digits and should be
rejected with the invalid-name error according to the claim, the spec's
anchored `^[0-9]+_.*\.sql$`, and the tool's own usage text ("their names
start with a number, followed by an underscore") — is accepted, with the
interior digit run `12` parsed as its version. -/
theorem c7_unanchored_name_accepted :
    parseMigrationName "foo12_bar.sql" = .ok 12 ∧
    parseMigrations [⟨"foo12_bar.sql", false, "create table t (x int);"⟩] =
      .ok [⟨12, "foo12_bar.sql", "create table t (x int);"⟩] := by
  exact ⟨by decide, by decide⟩

/-- Claim C8: a successful load yields migrations strictly ascending by
version (hence pairwise distinct) with every version at least 1. -/
theorem c8_load_sorted (entries : List dirEntry) (ms : List migration)
    (h : parseMigrations entries = .ok ms) :
    List.Pairwise vlt ms ∧ ∀ m ∈ ms, 1 ≤ m.version := by
  unfold parseMigrations parseMigrationsWith at h
  cases hc : collectMigrations entries [] with
  | ok l =>
    have hinv := collectMigrations_inv entries [] l hc List.Pairwise.nil (by simp)
    rw [hc] at h
    simp only [id] at h
    injection h with h
    subst h
    have hperm := List.perm_insertionSort vle l
    have hsorted := List.sorted_insertionSort vle l
    have hne : List.Pairwise vne (List.insertionSort vle l) :=
      (hperm.pairwise_iff vne_symm).mpr hinv.1
    refine ⟨(hsorted.and hne).imp fun hh => lt_of_le_of_ne hh.1 hh.2, ?_⟩
    intro m hm
    exact hinv.2 m (hperm.mem_iff.mp hm)
  | err s => rw [hc] at h; exact absurd h (by simp)
  | panicked s => rw [hc] at h; exact absurd h (by simp)

/-- Witness for C8 on a directory whose sorted-by-name listing is not in
version order (versions 3 then 1). -/
theorem c8_witness :
    parseMigrations [⟨"1_a.sql", false, "qa"⟩, ⟨"3_b.sql", false, "qb"⟩] =
      .ok [⟨1, "1_a.sql", "qa"⟩, ⟨3, "3_b.sql", "qb"⟩] ∧
    (List.Pairwise vlt ([⟨1, "1_a.sql", "qa"⟩, ⟨3, "3_b.sql", "qb"⟩] : List migration) ∧
      ∀ m ∈ ([⟨1, "1_a.sql", "qa"⟩, ⟨3, "3_b.sql", "qb"⟩] : List migration), 1 ≤ m.version) :=
  ⟨by decide,
   c8_load_sorted [⟨"1_a.sql", false, "qa"⟩, ⟨"3_b.sql", false, "qb"⟩]
     [⟨1, "1_a.sql", "qa"⟩, ⟨3, "3_b.sql", "qb"⟩] (by decide)⟩

/-- Claim C9: the loader is deterministic despite the intermediate
version-keyed map.  The entry scan itself is deterministic (`os.ReadDir`
returns a directory's entries sorted by filename, so the scan order —
and with it which pair of filenames a duplicate-version error reports —
is fixed by the directory's contents), and the only non-determinism, the
order in which `range` visits the map when collecting the values for the
final sort, does not affect the result: any two iteration orders yield
equal results, because versions are pairwise distinct and a
version-sorted permutation of a fixed version-distinct multiset is
unique. -/
theorem c9_load_deterministic (entries : List dirEntry)
    (r1 r2 : List migration → List migration)
    (h1 : ∀ l, (r1 l).Perm l) (h2 : ∀ l, (r2 l).Perm l) :
    parseMigrationsWith r1 entries = parseMigrationsWith r2 entries := by
  unfold parseMigrationsWith
  cases hc : collectMigrations entries [] with
  | ok l =>
    have hinv := collectMigrations_inv entries [] l hc List.Pairwise.nil (by simp)
    exact congrArg goResult.ok (insertionSort_perm_eq l (r1 l) (r2 l) hinv.1 (h1 l) (h2 l))
  | err s => rfl
  | panicked s => rfl

/-- Witness for C9: iterating the collected map values in order and in
reverse order produces the same loaded migration list. -/
theorem c9_witness :
    (∀ l : List migration, (id l).Perm l) ∧
    (∀ l : List migration, l.reverse.Perm l) ∧
    parseMigrationsWith id [⟨"1_a.sql", false, "qa"⟩, ⟨"2_b.sql", false, "qb"⟩] =
      parseMigrationsWith List.reverse [⟨"1_a.sql", false, "qa"⟩, ⟨"2_b.sql", false, "qb"⟩] :=
  ⟨fun l => List.Perm.refl l, fun l => List.reverse_perm l,
   c9_load_deterministic [⟨"1_a.sql", false, "qa"⟩, ⟨"2_b.sql", false, "qb"⟩] id List.reverse
     (fun l => List.Perm.refl l) (fun l => List.reverse_perm l)⟩

/-- Evidence against Claim C10 (code bug): on a filename whose leading
digit run exceeds the 64-bit machine integer range, `parseMigrationName`
reaches `strconv.Atoi`'s range error and calls `panic(err)` instead of
returning a loader error, so `load` traps rather than terminating with
one of the documented errors.  The input below is 2^63, one past Go's
maximum `int`. -/
theorem c10_overflow_panics :
    parseMigrations [⟨"9223372036854775808_x.sql", false, "select 1;"⟩] =
      .panicked "strconv.Atoi: value out of range" := by
  decide

end Sqlcc
